import Mathlib

/-!
Shallow embedding of the crawl-and-download program in src/fetch.js.

Strings are modelled as lists of characters (type Str).  The model restricts
the JavaScript Unicode case mapping to its ASCII part, which covers every
input the claims and the remote data format involve.  The stateful parts of
the program (the puppeteer page, the filesystem, console logging, the process
exit code) are modelled by an explicit world record of collaborator behaviour
and an explicit run state threaded through the control flow, which mirrors
the source line by line: the main IIFE, the district loop, the upazila loop,
the page.evaluate extraction and classification, downloadImage, and the
top-level catch that calls process.exit(1).
-/

abbrev Str := List Char

def str (x : String) : Str := x.data

/-- Character code of a character, as a natural number. -/
def cn (c : Char) : Nat := c.toNat

/-- Test for the class written a-z0-9 in the source regex (input is lowercased first). -/
def isLowerAlnum (c : Char) : Bool := (97 ≤ cn c && cn c ≤ 122) || (48 ≤ cn c && cn c ≤ 57)

/-- The characters removed by the first replace in slugify: apostrophe (39),
right single quotation mark (8217) and backquote (96). -/
def isApos (c : Char) : Bool := cn c = 39 || cn c = 8217 || cn c = 96

/-- The characters excluded by the regex character class in the link scanner:
double quote (34) and apostrophe (39). -/
def isQuote (c : Char) : Bool := cn c = 34 || cn c = 39

/-- ASCII fragment of the JavaScript toLowerCase character mapping. -/
def asciiLower (c : Char) : Char :=
  if 65 ≤ cn c && cn c ≤ 90 then Char.ofNat (cn c + 32) else c

/-- Model of the JavaScript String.toLowerCase on ASCII data. -/
def lowerStr (l : Str) : Str := l.map asciiLower

/-- Replace each maximal run of characters outside a-z0-9 by one underscore,
as the replace with the regex of non-alphanumeric runs does.  The boolean
argument records whether the scanner is inside such a run. -/
def collapseAux : Bool → Str → Str
  | _, [] => []
  | inRun, c :: rest =>
    if isLowerAlnum c then c :: collapseAux false rest
    else if inRun then collapseAux true rest
    else '_' :: collapseAux true rest

/-- Remove every trailing underscore, as the anchored part of the final
replace in slugify does. -/
def stripTrail : Str → Str
  | [] => []
  | c :: rest =>
    let r := stripTrail rest
    if c == '_' && r.isEmpty then [] else c :: r

/-- The slugify helper of fetch.js: lowercase, drop apostrophe-like
characters, collapse non-alphanumeric runs to underscores, strip leading and
trailing underscores. -/
def slugify (l : Str) : Str :=
  (stripTrail (collapseAux false ((l.map asciiLower).filter fun c => !isApos c))).dropWhile
    fun c => c == '_'

/-- ASCII whitespace stripped by the JavaScript String.trim in the option
mapping (space, tab, newline, carriage return). -/
def isWs (c : Char) : Bool := cn c = 32 || cn c = 9 || cn c = 10 || cn c = 13

/-- Model of String.trim on ASCII data. -/
def trimStr (l : Str) : Str :=
  ((l.dropWhile isWs).reverse.dropWhile isWs).reverse

/-- One option element of a select, as read by page.evaluate: its value
attribute and its text content, both raw. -/
structure Opt where
  value : Str
  text : Str
deriving DecidableEq

/-- The option filter used for both the district and the upazila lists:
drop options whose trimmed value is falsy (empty) or equals 0 or -1. -/
def keepOption (o : Opt) : Bool :=
  let val := trimStr o.value
  if val.isEmpty then false
  else if val = str "0" || val = str "-1" then false
  else true

/-- The evaluate body shared by the district and upazila reads: filter the
placeholder options out and map each survivor to its raw value and trimmed
text. -/
def filterOptions (opts : List Opt) : List Opt :=
  (opts.filter keepOption).map fun o => { value := o.value, text := trimStr o.text }

/-- Does the haystack start with the needle (both already in the comparison
case)?  Helper for the substring test. -/
def leadsWith : Str → Str → Bool
  | [], _ => true
  | _ :: _, [] => false
  | a :: ns, b :: hs => a == b && leadsWith ns hs

/-- Model of the JavaScript String.includes(needle) used by the classifier. -/
def strIncludes (hay needle : Str) : Bool :=
  match hay with
  | [] => needle.isEmpty
  | _ :: rest => leadsWith needle hay || strIncludes rest needle

/-- Case-insensitive starts-with against a pattern given in lowercase; used
for the case-insensitive regex pieces of the link scanner. -/
def leadsWithCI (pat l : Str) : Bool := (l.take pat.length).map asciiLower == pat

/-- The lowercase spelling of the literal part of the scanner regex. -/
def updocL : Str := str "/uploadeddocument/"

/-- The lowercase spelling of the literal suffix of the scanner regex. -/
def jpgL : Str := str ".jpg"

/-- Lazy scan for the shortest non-empty run of non-quote characters that is
followed by the jpg suffix (case-insensitively), as the reluctant
one-or-more in the scanner regex matches.  Returns the consumed characters
(run plus suffix, original case) and the remaining input. -/
def lazyScan : Str → Option (Str × Str)
  | [] => none
  | c :: rest =>
    if isQuote c then none
    else if leadsWithCI jpgL rest then some (c :: rest.take 4, rest.drop 4)
    else
      match lazyScan rest with
      | some (mid, r) => some (c :: mid, r)
      | none => none

/-- One global pass of the scanner regex over the page markup: at each
position try to match the root literal case-insensitively, then the lazy
middle and the jpg suffix; on success emit the matched text (original case)
and resume after it, otherwise advance one character.  The fuel equals the
input length, which bounds the number of positions tried. -/
def extractAllFuel : Nat → Str → List Str
  | 0, _ => []
  | _ + 1, [] => []
  | fuel + 1, c :: rest =>
    if leadsWithCI updocL (c :: rest) then
      match lazyScan ((c :: rest).drop updocL.length) with
      | some (mid, r) => ((c :: rest).take updocL.length ++ mid) :: extractAllFuel fuel r
      | none => extractAllFuel fuel rest
    else extractAllFuel fuel rest

/-- All matches of the UploadedDocument jpg regex over the markup, in match
order, as the while loop over regex.exec collects them. -/
def extractAll (html : Str) : List Str := extractAllFuel html.length html

/-- Set-based deduplication keeping first occurrences, as filling a Set and
converting it back with Array.from does. -/
def dedupFirstAux : List Str → List Str → List Str
  | _, [] => []
  | seen, x :: rest =>
    if x ∈ seen then dedupFirstAux seen rest else x :: dedupFirstAux (x :: seen) rest

def dedupFirst (l : List Str) : List Str := dedupFirstAux [] l

/-- Split a path on slashes. -/
def splitSlash : Str → List Str
  | [] => [[]]
  | c :: rest =>
    if c = '/' then [] :: splitSlash rest
    else
      match splitSlash rest with
      | [] => [[c]]
      | seg :: segs => (c :: seg) :: segs

/-- Dot-segment processing of URL resolution: a two-dot segment pops the
last output segment, a one-dot segment is dropped, anything else is kept. -/
def processSegs : List Str → List Str → List Str
  | stack, [] => stack
  | stack, seg :: rest =>
    if seg = str ".." then processSegs stack.dropLast rest
    else if seg = str "." then processSegs stack rest
    else processSegs (stack ++ [seg]) rest

def joinSlash : List Str → Str
  | [] => []
  | [x] => x
  | x :: xs => x ++ '/' :: joinSlash xs

/-- Path produced by resolving a root-relative reference (starting with a
slash) against the base URL: dot segments are removed per the URL standard. -/
def removeDotSegments (p : Str) : Str :=
  '/' :: joinSlash (processSegs [] ((splitSlash p).drop 1))

/-- The origin of BASE_URL in fetch.js. -/
def baseOrigin : Str := str "https://oldweb.lged.gov.bd"

/-- Model of new URL(rel, BASE_URL).toString() for the root-relative
references the scanner produces. -/
def resolveUrl (rel : Str) : Str := baseOrigin ++ removeDotSegments rel

/-- Result of the classification part of the page.evaluate body. -/
structure LeafClass where
  allPaths : List Str
  upazilaPaths : List Str
  roadPaths : List Str
deriving DecidableEq

def roadNeedle : Str := str "road"

/-- Lines 159 to 180 of fetch.js: keep the candidates whose lowercased form
contains the lowercased slug, then split the survivors on the road marker.
Note the field named allPaths is bound to the filtered list in the source. -/
def classifyLeaf (all : List Str) (upSlug : Str) : LeafClass :=
  let lowerSlug := lowerStr upSlug
  let filtered := all.filter fun p => strIncludes (lowerStr p) lowerSlug
  let pr := filtered.partition fun p => strIncludes (lowerStr p) roadNeedle
  { allPaths := filtered, upazilaPaths := pr.2, roadPaths := pr.1 }

/-- Lines 183 to 194 of fetch.js: skip the leaf (with a warning) when
allPaths is empty, otherwise apply the fallback guard and return the final
upazila and road download lists. -/
def leafPlan (cands : List Str) (upSlug : Str) : Option (List Str × List Str) :=
  let r := classifyLeaf cands upSlug
  if r.allPaths = [] then none
  else
    let finalUpazila :=
      if r.upazilaPaths = [] ∧ r.roadPaths = [] ∧ r.allPaths ≠ [] then r.allPaths
      else r.upazilaPaths
    some (finalUpazila, r.roadPaths)

/-- All paths dispatched to download for one leaf, in dispatch order. -/
def leafDispatch (html upSlug : Str) : List Str :=
  match leafPlan (dedupFirst (extractAll html)) upSlug with
  | none => []
  | some pr => pr.1 ++ pr.2

/-- Decimal digit characters. -/
def digitCh (c : Char) : Bool := 48 ≤ cn c && cn c ≤ 57

def digitChar : Nat → Char
  | 0 => '0'
  | 1 => '1'
  | 2 => '2'
  | 3 => '3'
  | 4 => '4'
  | 5 => '5'
  | 6 => '6'
  | 7 => '7'
  | 8 => '8'
  | _ => '9'

/-- Decimal rendering of a natural number with explicit fuel (the fuel never
runs out when it exceeds the number). -/
def natDigits : Nat → Nat → Str
  | 0, _ => []
  | fuel + 1, n =>
    if n < 10 then [digitChar n]
    else natDigits fuel (n / 10) ++ [digitChar (n % 10)]

/-- Model of the template interpolation of the numeric index idx. -/
def natToDigits (n : Nat) : Str := natDigits (n + 1) n

/-- Value of a digit character. -/
def dVal (c : Char) : Nat := cn c - 48

/-- Value of a string of decimal digits. -/
def digitsVal (l : Str) : Nat := l.foldl (fun a c => a * 10 + dVal c) 0

/-- The two download categories of the program. -/
inductive Category where
  | upazila
  | road
deriving DecidableEq

/-- Output directories, relative to the script directory: OUTPUT_ROOT is
lged_maps and the category directories sit under it. -/
def catDir : Category → Str
  | Category.upazila => str "lged_maps/upazila"
  | Category.road => str "lged_maps/road"

/-- The category token interpolated into the file name template. -/
def catTok : Category → Str
  | Category.upazila => str "upazila"
  | Category.road => str "road"

/-- The file name template: districtSlug, two underscores, upazilaSlug, one
underscore, the category token, one underscore, the index, dot jpg. -/
def mkFileName (dS uS tok : Str) (i : Nat) : Str :=
  dS ++ '_' :: '_' :: (uS ++ '_' :: (tok ++ '_' :: (natToDigits i ++ str ".jpg")))

/-- path.join of the category directory and the templated file name. -/
def mkDest (c : Category) (dS uS : Str) (i : Nat) : Str :=
  catDir c ++ '/' :: mkFileName dS uS (catTok c) i

/-- The local path of a download task as a function of the raw district and
upazila labels, the category and the ordinal index. -/
def destPath (c : Category) (dLabel uLabel : Str) (i : Nat) : Str :=
  mkDest c (slugify dLabel) (slugify uLabel) i

/-- Outcome of the page.goto navigation in downloadImage: a response with a
status and a body (bodies are abstract, identified by a number), a null
response, or a thrown transport error. -/
inductive FetchOutcome where
  | ok (status : Nat) (body : Nat)
  | noResp
  | err (msg : Str)
deriving DecidableEq

/-- One console line of the program, tagged by call site. -/
inductive LogEvent where
  | noDistricts
  | foundDistricts (n : Nat)
  | districtBanner (text value : Str)
  | noUpazilas (text : Str)
  | upazilaCount (text : Str) (n : Nat)
  | upazilaBanner (text value : Str)
  | noLinks (text : Str)
  | saved (dest : Str)
  | nonOk (url : Str) (status : Nat)
  | noResponse (url : Str)
  | downloadFailed (url : Str) (msg : Str)
  | fatal
  | done
deriving DecidableEq

def isSaved : LogEvent → Bool
  | LogEvent.saved _ => true
  | _ => false

/-- Observable state of one run: files written (path and body, in write
order), console lines (in order) and the number of network fetches issued
by downloadImage. -/
structure RunState where
  files : List (Str × Nat)
  logs : List LogEvent
  fetchCount : Nat
deriving DecidableEq

def initState : RunState := { files := [], logs := [], fetchCount := 0 }

/-- Lines 36 to 65 of fetch.js.  Opens a page and navigates to the url (one
network fetch in every branch); a null response or a non-2xx status is
logged and nothing is written; a 2xx response writes the body to destPath
and logs the save; a thrown error is caught and logged.  The function never
propagates an exception, so the caller continues with the next task.  There
is no check whether destPath already exists. -/
def downloadImage (f : Str → FetchOutcome) (url dest : Str) (st : RunState) : RunState :=
  match f url with
  | FetchOutcome.noResp =>
    { st with logs := st.logs ++ [LogEvent.noResponse url], fetchCount := st.fetchCount + 1 }
  | FetchOutcome.ok status body =>
    if status < 200 ∨ 300 ≤ status then
      { st with logs := st.logs ++ [LogEvent.nonOk url status], fetchCount := st.fetchCount + 1 }
    else
      { st with files := st.files ++ [(dest, body)],
                logs := st.logs ++ [LogEvent.saved dest],
                fetchCount := st.fetchCount + 1 }
  | FetchOutcome.err msg =>
    { st with logs := st.logs ++ [LogEvent.downloadFailed url msg], fetchCount := st.fetchCount + 1 }

/-- One download loop of the upazila body: resolve each relative path
against the base, build the destination from the slugs, the category and the
running index starting at 1, and dispatch to downloadImage. -/
def downloadLoop (f : Str → FetchOutcome) (c : Category) (dS uS : Str) :
    List Str → Nat → RunState → RunState
  | [], _, st => st
  | rel :: rest, idx, st =>
    downloadLoop f c dS uS rest (idx + 1)
      (downloadImage f (resolveUrl rel) (mkDest c dS uS idx) st)

/-- Behaviour of the external collaborators for one run: the raw district
option list, the raw upazila option list revealed by selecting a district,
the rendered markup after selecting an upazila, injected failures of the two
page.select calls (a thrown error message, or none), and the network
behaviour of binary fetches. -/
structure World where
  districts : List Opt
  upazilaOptions : Str → List Opt
  leafHtml : Str → Str → Str
  selectDistrictFails : Str → Option Str
  selectUpazilaFails : Str → Str → Option Str
  fetch : Str → FetchOutcome

/-- Lines 139 to 221 of fetch.js, one upazila: log the banner, select the
upazila (a thrown selection error propagates out of the loop, there is no
per-leaf catch), scrape and deduplicate the candidate paths, classify them,
and either warn on an empty result or run the two download loops. -/
def processUpazila (w : World) (dSlug dVal : Str) (u : Opt) (st : RunState) :
    Except (Str × RunState) RunState :=
  let uSlug := slugify u.text
  let st1 := { st with logs := st.logs ++ [LogEvent.upazilaBanner u.text u.value] }
  match w.selectUpazilaFails dVal u.value with
  | some e => Except.error (e, st1)
  | none =>
    let cands := dedupFirst (extractAll (w.leafHtml dVal u.value))
    match leafPlan cands uSlug with
    | none => Except.ok { st1 with logs := st1.logs ++ [LogEvent.noLinks u.text] }
    | some pr =>
      let st2 := downloadLoop w.fetch Category.upazila dSlug uSlug pr.1 1 st1
      let st3 := downloadLoop w.fetch Category.road dSlug uSlug pr.2 1 st2
      Except.ok st3

def runUpazilas (w : World) (dSlug dVal : Str) :
    List Opt → RunState → Except (Str × RunState) RunState
  | [], st => Except.ok st
  | u :: rest, st =>
    match processUpazila w dSlug dVal u st with
    | Except.error e => Except.error e
    | Except.ok st2 => runUpazilas w dSlug dVal rest st2

/-- Lines 107 to 224 of fetch.js, one district: log the banner, select the
district (a thrown selection error propagates), read and filter the upazila
options, warn and continue when none remain, otherwise walk the upazilas. -/
def processDistrict (w : World) (d : Opt) (st : RunState) :
    Except (Str × RunState) RunState :=
  let dSlug := slugify d.text
  let st1 := { st with logs := st.logs ++ [LogEvent.districtBanner d.text d.value] }
  match w.selectDistrictFails d.value with
  | some e => Except.error (e, st1)
  | none =>
    let ups := filterOptions (w.upazilaOptions d.value)
    if ups = [] then Except.ok { st1 with logs := st1.logs ++ [LogEvent.noUpazilas d.text] }
    else
      runUpazilas w dSlug d.value ups
        { st1 with logs := st1.logs ++ [LogEvent.upazilaCount d.text ups.length] }

def runDistricts (w : World) : List Opt → RunState → Except (Str × RunState) RunState
  | [], st => Except.ok st
  | d :: rest, st =>
    match processDistrict w d st with
    | Except.error e => Except.error e
    | Except.ok st2 => runDistricts w rest st2

/-- The whole run of the main IIFE: read and filter the district list, exit
with code 1 when it is empty, walk the districts, and map an escaped
exception to the top-level catch (log plus exit code 1); a clean finish
logs Done and exits 0.  Returns the exit code and the final state. -/
def runMain (w : World) : Nat × RunState :=
  let districts := filterOptions w.districts
  if districts = [] then (1, { initState with logs := [LogEvent.noDistricts] })
  else
    match runDistricts w districts
        { initState with logs := [LogEvent.foundDistricts districts.length] } with
    | Except.error e => (1, { e.2 with logs := e.2.logs ++ [LogEvent.fatal] })
    | Except.ok st => (0, { st with logs := st.logs ++ [LogEvent.done] })

/-- The happy-path scenario of the spec: one district Dhaka with value 10,
one upazila Savar with value 5, and a page whose markup carries the two
derived links; every binary fetch answers 200 with body 7. -/
def happyHtml : Str :=
  str "<img src=\"/UploadedDocument/x/savar_road.jpg\"> <img src=\"/UploadedDocument/x/savar.jpg\">"

def happyWorld : World where
  districts := [⟨str "10", str "Dhaka"⟩]
  upazilaOptions := fun v => if v = str "10" then [⟨str "5", str "Savar"⟩] else []
  leafHtml := fun _ _ => happyHtml
  selectDistrictFails := fun _ => none
  selectUpazilaFails := fun _ _ => none
  fetch := fun _ => FetchOutcome.ok 200 7

/-- The happy world with the per-upazila select call throwing. -/
def crashWorld : World :=
  { happyWorld with selectUpazilaFails := fun _ _ => some (str "boom") }

/-- A network that always answers 200 with body 7. -/
def okFetch : Str → FetchOutcome := fun _ => FetchOutcome.ok 200 7

/-- A network that always answers HTTP 404. -/
def f404 : Str → FetchOutcome := fun _ => FetchOutcome.ok 404 0

/-- A concrete remote URL for the sink. -/
def u0 : Str := str "https://oldweb.lged.gov.bd/UploadedDocument/x/savar.jpg"

/-- A concrete local destination path for the sink. -/
def d0 : Str := str "lged_maps/upazila/dhaka__savar_upazila_1.jpg"

/-- A candidate path that does not mention the leaf label. -/
def otherPath : Str := str "/UploadedDocument/maps/other.jpg"

/-- A candidate path whose lowercased form contains the lowercased label
A B as a substring but not its slug. -/
def spacedPath : Str := str "/UploadedDocument/a b.jpg"

/-- Markup carrying one link with a parent-traversal segment. -/
def badHtml : Str := str "<img src=\"/UploadedDocument/../secret.jpg\">"

/-- The candidate extracted from badHtml. -/
def secretPath : Str := str "/UploadedDocument/../secret.jpg"

/-- The base origin followed by the UploadedDocument root, for stating that
a resolved URL stays under the root. -/
def rootUrl : Str := str "https://oldweb.lged.gov.bd/UploadedDocument/"

/-- Markup carrying two textually distinct links that resolve to the same
URL once dot segments are removed. -/
def dupHtml : Str :=
  str "<a href=\"/UploadedDocument/x/../savar.jpg\"> <a href=\"/UploadedDocument/savar.jpg\">"

lemma appendLC (a b c : Str) (h : a ++ b = a ++ c) : b = c := by
  induction a with
  | nil => simpa using h
  | cons x xs ih => exact ih (by simpa using h)

lemma appendRC (a b c : Str) (h : a ++ c = b ++ c) : a = b := by
  have h2 : c.reverse ++ a.reverse = c.reverse ++ b.reverse := by
    rw [← List.reverse_append, ← List.reverse_append, h]
  have h3 := appendLC _ _ _ h2
  have h4 := congrArg List.reverse h3
  simpa using h4

lemma takeWhile_digit_block (xs ys : Str) (h : ∀ c ∈ xs, digitCh c = true) :
    List.takeWhile digitCh (xs ++ '_' :: ys) = xs := by
  induction xs with
  | nil => simp [List.takeWhile_cons]; decide
  | cons a as ih =>
    have ha : digitCh a = true := h a (List.mem_cons_self a as)
    simp only [List.cons_append, List.takeWhile_cons, ha, if_true]
    rw [ih fun c hc => h c (List.mem_cons_of_mem a hc)]

/-- The maximal digit suffix of a string. -/
def digSuffix (l : Str) : Str := (List.takeWhile digitCh l.reverse).reverse

lemma digSuffix_spec (u tok dig : Str) (hd : ∀ c ∈ dig, digitCh c = true) :
    digSuffix (u ++ '_' :: (tok ++ '_' :: dig)) = dig := by
  unfold digSuffix
  have hrev : (u ++ '_' :: (tok ++ '_' :: dig)).reverse
      = dig.reverse ++ '_' :: (tok.reverse ++ '_' :: u.reverse) := by
    simp [List.reverse_append, List.reverse_cons, List.append_assoc]
  rw [hrev, takeWhile_digit_block _ _ (by intro c hc; exact hd c (by simpa using hc))]
  simp

lemma digitChar_val (n : Nat) (h : n < 10) : dVal (digitChar n) = n ∧ digitCh (digitChar n) = true := by
  interval_cases n <;> exact ⟨by decide, by decide⟩

lemma natDigits_digit : ∀ (fuel n : Nat), n < fuel → ∀ c ∈ natDigits fuel n, digitCh c = true := by
  intro fuel
  induction fuel with
  | zero => intro n h; omega
  | succ f ih =>
    intro n hn c hc
    by_cases h10 : n < 10
    · simp only [natDigits, h10, if_true, List.mem_singleton] at hc
      subst hc; exact (digitChar_val n h10).2
    · simp only [natDigits, h10, if_false, List.mem_append, List.mem_singleton] at hc
      rcases hc with hc | hc
      · exact ih (n / 10) (by omega) c hc
      · subst hc; exact (digitChar_val (n % 10) (by omega)).2

lemma digitsVal_append_one (a : Str) (c : Char) :
    digitsVal (a ++ [c]) = digitsVal a * 10 + dVal c := by
  simp [digitsVal, List.foldl_append]

lemma digitsVal_natDigits : ∀ (fuel n : Nat), n < fuel → digitsVal (natDigits fuel n) = n := by
  intro fuel
  induction fuel with
  | zero => intro n h; omega
  | succ f ih =>
    intro n hn
    by_cases h10 : n < 10
    · simp only [natDigits, h10, if_true]
      have := (digitChar_val n h10).1
      simp [digitsVal, this]
    · simp only [natDigits, h10, if_false]
      rw [digitsVal_append_one, ih (n / 10) (by omega), (digitChar_val (n % 10) (by omega)).1]
      omega

lemma natToDigits_digit (n : Nat) : ∀ c ∈ natToDigits n, digitCh c = true :=
  natDigits_digit (n + 1) n (Nat.lt_succ_self n)

lemma natToDigits_inj (m n : Nat) (h : natToDigits m = natToDigits n) : m = n := by
  have hm := digitsVal_natDigits (m + 1) m (Nat.lt_succ_self m)
  have hn := digitsVal_natDigits (n + 1) n (Nat.lt_succ_self n)
  unfold natToDigits at h
  rw [← hm, ← hn, h]

/-- No two adjacent underscores. -/
def noDDb : Str → Bool
  | [] => true
  | [_] => true
  | a :: b :: rest => !(a == '_' && b == '_') && noDDb (b :: rest)

/-- The last character, if any, is not an underscore. -/
def endsOkb : Str → Bool
  | [] => true
  | [c] => !(c == '_')
  | _ :: rest => endsOkb rest

lemma noDDb_tail (c : Char) (l : Str) (h : noDDb (c :: l) = true) : noDDb l = true := by
  cases l with
  | nil => rfl
  | cons b rest => exact (Bool.and_eq_true _ _ |>.mp h).2

lemma endsOkb_tail (c : Char) (l : Str) (h : endsOkb (c :: l) = true) : endsOkb l = true := by
  cases l with
  | nil => rfl
  | cons b rest => exact h

lemma noDDb_cons (c : Char) (l : Str)
    (hh : ∀ x xs, l = x :: xs → (c == '_' && x == '_') = false)
    (hl : noDDb l = true) : noDDb (c :: l) = true := by
  cases l with
  | nil => rfl
  | cons x xs =>
    have := hh x xs rfl
    simp [noDDb, this, hl]

lemma collapse_true_head (l : Str) :
    collapseAux true l = [] ∨
      ∃ c r, collapseAux true l = c :: r ∧ isLowerAlnum c = true := by
  induction l with
  | nil => left; rfl
  | cons c rest ih =>
    by_cases h : isLowerAlnum c = true
    · right; exact ⟨c, collapseAux false rest, by simp [collapseAux, h], h⟩
    · simpa [collapseAux, h] using ih

lemma alnum_ne_underscore (c : Char) (h : isLowerAlnum c = true) : (c == '_') = false := by
  by_cases hc : c = '_'
  · subst hc; exact absurd h (by decide)
  · simp [hc]

lemma noDDb_collapse (l : Str) : ∀ b, noDDb (collapseAux b l) = true := by
  induction l with
  | nil => intro b; rfl
  | cons c rest ih =>
    intro b
    by_cases h : isLowerAlnum c = true
    · rw [show collapseAux b (c :: rest) = c :: collapseAux false rest from by
        simp [collapseAux, h]]
      apply noDDb_cons
      · intro x xs _
        simp [alnum_ne_underscore c h]
      · exact ih false
    · cases b with
      | true =>
        rw [show collapseAux true (c :: rest) = collapseAux true rest from by
          simp [collapseAux, h]]
        exact ih true
      | false =>
        rw [show collapseAux false (c :: rest) = '_' :: collapseAux true rest from by
          simp [collapseAux, h]]
        apply noDDb_cons
        · intro x xs hx
          rcases collapse_true_head rest with h0 | ⟨c2, r2, he, ha⟩
          · rw [h0] at hx; cases hx
          · rw [he] at hx
            have hx2 : c2 = x := (List.cons.injEq _ _ _ _ |>.mp hx).1
            rw [hx2] at ha
            simp [alnum_ne_underscore x ha]
        · exact ih true

lemma noDDb_dropWhile (p : Char → Bool) (l : Str) (h : noDDb l = true) :
    noDDb (l.dropWhile p) = true := by
  induction l with
  | nil => exact h
  | cons c rest ih =>
    by_cases hp : p c = true
    · simp only [List.dropWhile_cons, hp, if_true]
      exact ih (noDDb_tail c rest h)
    · simpa [List.dropWhile_cons, hp] using h

lemma stripTrail_cons (c : Char) (l : Str) :
    stripTrail (c :: l) = [] ∨ stripTrail (c :: l) = c :: stripTrail l := by
  by_cases h : (c == '_' && (stripTrail l).isEmpty) = true
  · left; simp [stripTrail, h]
  · right; simp [stripTrail, h]

lemma noDDb_stripTrail (l : Str) (h : noDDb l = true) : noDDb (stripTrail l) = true := by
  induction l with
  | nil => exact h
  | cons c rest ih =>
    rcases stripTrail_cons c rest with he | he
    · rw [he]; rfl
    · rw [he]
      apply noDDb_cons
      · intro x xs hx
        cases rest with
        | nil => simp [stripTrail] at hx
        | cons d rest2 =>
          rcases stripTrail_cons d rest2 with h2 | h2
          · rw [h2] at hx; cases hx
          · rw [h2] at hx
            have hx2 : d = x := (List.cons.injEq _ _ _ _ |>.mp hx).1
            have hh : (!(c == '_' && d == '_') && noDDb (d :: rest2)) = true := h
            have hh2 : (c == '_' && d == '_') = false := by
              have h1 := ((Bool.and_eq_true _ _).mp hh).1
              cases hb : (c == '_' && d == '_') with
              | false => rfl
              | true => rw [hb] at h1; exact absurd h1 (by decide)
            rw [← hx2]
            exact hh2
      · exact ih (noDDb_tail c rest h)

lemma endsOkb_stripTrail (l : Str) : endsOkb (stripTrail l) = true := by
  induction l with
  | nil => rfl
  | cons c rest ih =>
    rcases stripTrail_cons c rest with he | he
    · rw [he]; rfl
    · rw [he]
      cases hr : stripTrail rest with
      | nil =>
        by_cases hc : (c == '_') = true
        · exfalso
          have h0 : stripTrail (c :: rest) = [] := by simp [stripTrail, hc, hr]
          rw [he, hr] at h0
          cases h0
        · have hc2 : (c == '_') = false := by simpa using hc
          show (!(c == '_')) = true
          rw [hc2]
          rfl
      | cons x xs =>
        show endsOkb (x :: xs) = true
        rw [← hr]
        exact ih

lemma endsOkb_dropWhile (p : Char → Bool) (l : Str) (h : endsOkb l = true) :
    endsOkb (l.dropWhile p) = true := by
  induction l with
  | nil => exact h
  | cons c rest ih =>
    by_cases hp : p c = true
    · simp only [List.dropWhile_cons, hp, if_true]
      exact ih (endsOkb_tail c rest h)
    · simpa [List.dropWhile_cons, hp] using h

lemma slug_noDD (l : Str) : noDDb (slugify l) = true := by
  unfold slugify
  exact noDDb_dropWhile _ _ (noDDb_stripTrail _ (noDDb_collapse _ false))

lemma slug_endsOk (l : Str) : endsOkb (slugify l) = true := by
  unfold slugify
  exact endsOkb_dropWhile _ _ (endsOkb_stripTrail _)

/-- Characters a slug may contain: lowercase alphanumerics and underscore. -/
def slugChar (c : Char) : Bool := isLowerAlnum c || c == '_'

lemma slugChar_collapse (l : Str) : ∀ b, ∀ c ∈ collapseAux b l, slugChar c = true := by
  induction l with
  | nil => intro b c hc; cases hc
  | cons x rest ih =>
    intro b c hc
    by_cases h : isLowerAlnum x = true
    · rw [show collapseAux b (x :: rest) = x :: collapseAux false rest from by
        simp [collapseAux, h]] at hc
      rcases List.mem_cons.mp hc with hc | hc
      · subst hc; simp [slugChar, h]
      · exact ih false c hc
    · cases b with
      | true =>
        rw [show collapseAux true (x :: rest) = collapseAux true rest from by
          simp [collapseAux, h]] at hc
        exact ih true c hc
      | false =>
        rw [show collapseAux false (x :: rest) = '_' :: collapseAux true rest from by
          simp [collapseAux, h]] at hc
        rcases List.mem_cons.mp hc with hc | hc
        · subst hc; decide
        · exact ih true c hc

lemma mem_stripTrail (l : Str) (c : Char) (hc : c ∈ stripTrail l) : c ∈ l := by
  induction l with
  | nil => cases hc
  | cons x rest ih =>
    rcases stripTrail_cons x rest with he | he
    · rw [he] at hc; cases hc
    · rw [he] at hc
      rcases List.mem_cons.mp hc with hc | hc
      · subst hc; exact List.mem_cons_self _ _
      · exact List.mem_cons_of_mem _ (ih hc)

lemma slugChar_slug (l : Str) (c : Char) (hc : c ∈ slugify l) : slugChar c = true := by
  unfold slugify at hc
  have h1 := (List.dropWhile_sublist (fun ch => ch == '_')).mem hc
  have h2 := mem_stripTrail _ _ h1
  exact slugChar_collapse _ false c h2

lemma asciiLower_fix (c : Char) (h : slugChar c = true) : asciiLower c = c := by
  unfold asciiLower
  by_cases hcap : (65 ≤ cn c && cn c ≤ 90) = true
  · exfalso
    have hcap2 := Bool.and_eq_true _ _ |>.mp hcap
    have h65 : 65 ≤ cn c := by exact Nat.le_of_ble_eq_true (by simpa using hcap2.1)
    have h90 : cn c ≤ 90 := by exact Nat.le_of_ble_eq_true (by simpa using hcap2.2)
    simp only [slugChar, isLowerAlnum, Bool.or_eq_true, Bool.and_eq_true,
      decide_eq_true_eq, beq_iff_eq] at h
    rcases h with (⟨h1, h2⟩ | ⟨h1, h2⟩) | h1
    · omega
    · omega
    · subst h1
      have : cn '_' = 95 := by decide
      omega
  · simp [hcap]

lemma lowerStr_fix (l : Str) (h : ∀ c ∈ l, slugChar c = true) : lowerStr l = l := by
  induction l with
  | nil => rfl
  | cons c rest ih =>
    show asciiLower c :: lowerStr rest = c :: rest
    rw [asciiLower_fix c (h c (List.mem_cons_self c rest)),
      ih fun x hx => h x (List.mem_cons_of_mem c hx)]

lemma lowerStr_slug (l : Str) : lowerStr (slugify l) = slugify l :=
  lowerStr_fix _ (slugChar_slug l)

lemma ddSplit : ∀ (d1 : Str), noDDb d1 = true → endsOkb d1 = true →
    ∀ (d2 : Str), noDDb d2 = true → endsOkb d2 = true →
    ∀ (r1 r2 : Str), d1 ++ '_' :: '_' :: r1 = d2 ++ '_' :: '_' :: r2 → d1 = d2 ∧ r1 = r2 := by
  intro d1
  induction d1 with
  | nil =>
    intro _ _ d2 hn2 he2 r1 r2 h
    cases d2 with
    | nil =>
      refine ⟨rfl, ?_⟩
      simpa using h
    | cons c d2t =>
      exfalso
      simp only [List.nil_append, List.cons_append, List.cons.injEq] at h
      obtain ⟨hc, h⟩ := h
      cases d2t with
      | nil =>
        subst hc
        exact absurd he2 (by decide)
      | cons e d2tt =>
        simp only [List.cons_append, List.cons.injEq] at h
        obtain ⟨hee, _⟩ := h
        subst hc
        subst hee
        have hfalse : (!('_' == '_' && '_' == '_') && noDDb ('_' :: d2tt)) = true := hn2
        have h1 : (!('_' == '_' && '_' == '_')) = true := ((Bool.and_eq_true _ _).mp hfalse).1
        exact absurd h1 (by decide)
  | cons c d1t ih =>
    intro hn1 he1 d2 hn2 he2 r1 r2 h
    cases d2 with
    | nil =>
      exfalso
      simp only [List.nil_append, List.cons_append, List.cons.injEq] at h
      obtain ⟨hc, h⟩ := h
      cases d1t with
      | nil =>
        subst hc
        exact absurd he1 (by decide)
      | cons e d1tt =>
        simp only [List.cons_append, List.cons.injEq] at h
        obtain ⟨hee, _⟩ := h
        subst hc
        subst hee
        have hfalse : noDDb ('_' :: '_' :: d1tt) = true := hn1
        have : (!('_' == '_' && '_' == '_')) = true := ((Bool.and_eq_true _ _).mp hfalse).1
        exact absurd this (by decide)
    | cons e d2t =>
      simp only [List.cons_append, List.cons.injEq] at h
      obtain ⟨hce, h⟩ := h
      subst hce
      obtain ⟨hd, hr⟩ := ih (noDDb_tail _ _ hn1) (endsOkb_tail _ _ he1) d2t
        (noDDb_tail _ _ hn2) (endsOkb_tail _ _ he2) r1 r2 h
      exact ⟨by rw [hd], hr⟩

lemma take_append_small : ∀ (a : Str) (n : Nat) (b : Str), n ≤ a.length →
    (a ++ b).take n = a.take n := by
  intro a
  induction a with
  | nil =>
    intro n b hn
    have : n = 0 := by simpa using hn
    subst this
    rfl
  | cons c as ih =>
    intro n b hn
    cases n with
    | zero => rfl
    | succ m =>
      show c :: (as ++ b).take m = c :: as.take m
      rw [ih m b (by simpa using hn)]

lemma mkFileName_inj (tok dS1 uS1 dS2 uS2 : Str) (i1 i2 : Nat)
    (hn1 : noDDb dS1 = true) (he1 : endsOkb dS1 = true)
    (hn2 : noDDb dS2 = true) (he2 : endsOkb dS2 = true)
    (h : mkFileName dS1 uS1 tok i1 = mkFileName dS2 uS2 tok i2) :
    dS1 = dS2 ∧ uS1 = uS2 ∧ i1 = i2 := by
  unfold mkFileName at h
  obtain ⟨hd, hr⟩ := ddSplit dS1 hn1 he1 dS2 hn2 he2 _ _ h
  have hr2 : (uS1 ++ '_' :: (tok ++ '_' :: natToDigits i1)) ++ str ".jpg"
      = (uS2 ++ '_' :: (tok ++ '_' :: natToDigits i2)) ++ str ".jpg" := by
    simpa [List.append_assoc] using hr
  have hB := appendRC _ _ _ hr2
  have hdig : natToDigits i1 = natToDigits i2 := by
    have e1 := digSuffix_spec uS1 tok (natToDigits i1) (natToDigits_digit i1)
    have e2 := digSuffix_spec uS2 tok (natToDigits i2) (natToDigits_digit i2)
    rw [← e1, ← e2, hB]
  have hi := natToDigits_inj _ _ hdig
  subst hi
  exact ⟨hd, appendRC _ _ _ hB, rfl⟩

lemma mkDest_cat_ne (dS1 uS1 dS2 uS2 : Str) (i1 i2 : Nat) :
    mkDest Category.upazila dS1 uS1 i1 ≠ mkDest Category.road dS2 uS2 i2 := by
  intro h
  have h11 := congrArg (List.take 11) h
  unfold mkDest at h11
  rw [take_append_small _ 11 _ (by decide), take_append_small _ 11 _ (by decide)] at h11
  exact absurd h11 (by decide)

lemma destPath_inj_iff (c1 c2 : Category) (d1 u1 d2 u2 : Str) (i1 i2 : Nat) :
    destPath c1 d1 u1 i1 = destPath c2 d2 u2 i2 ↔
      (c1 = c2 ∧ slugify d1 = slugify d2 ∧ slugify u1 = slugify u2 ∧ i1 = i2) := by
  constructor
  · intro h
    unfold destPath mkDest at h
    cases c1 with
    | upazila =>
      cases c2 with
      | upazila =>
        have h2 := appendLC _ _ _ h
        have h3 : mkFileName (slugify d1) (slugify u1) (catTok Category.upazila) i1
            = mkFileName (slugify d2) (slugify u2) (catTok Category.upazila) i2 :=
          (List.cons.injEq _ _ _ _ |>.mp h2).2
        obtain ⟨hd, hu, hi⟩ := mkFileName_inj _ _ _ _ _ _ _
          (slug_noDD d1) (slug_endsOk d1) (slug_noDD d2) (slug_endsOk d2) h3
        exact ⟨rfl, hd, hu, hi⟩
      | road => exact absurd h (mkDest_cat_ne _ _ _ _ _ _)
    | road =>
      cases c2 with
      | upazila => exact absurd h.symm (mkDest_cat_ne _ _ _ _ _ _)
      | road =>
        have h2 := appendLC _ _ _ h
        have h3 : mkFileName (slugify d1) (slugify u1) (catTok Category.road) i1
            = mkFileName (slugify d2) (slugify u2) (catTok Category.road) i2 :=
          (List.cons.injEq _ _ _ _ |>.mp h2).2
        obtain ⟨hd, hu, hi⟩ := mkFileName_inj _ _ _ _ _ _ _
          (slug_noDD d1) (slug_endsOk d1) (slug_noDD d2) (slug_endsOk d2) h3
        exact ⟨rfl, hd, hu, hi⟩
  · rintro ⟨hc, hd, hu, hi⟩
    subst hc
    unfold destPath
    rw [hd, hu, hi]

lemma extractAllFuel_updoc : ∀ (fuel : Nat) (l p : Str),
    p ∈ extractAllFuel fuel l → leadsWithCI updocL p = true := by
  intro fuel
  induction fuel with
  | zero => intro l p hp; cases hp
  | succ f ih =>
    intro l p hp
    cases l with
    | nil => cases hp
    | cons c rest =>
      by_cases hpre : leadsWithCI updocL (c :: rest) = true
      · cases hscan : lazyScan ((c :: rest).drop updocL.length) with
        | none =>
          rw [show extractAllFuel (f + 1) (c :: rest) = extractAllFuel f rest from by
            simp [extractAllFuel, hpre, hscan]] at hp
          exact ih rest p hp
        | some pr =>
          rw [show extractAllFuel (f + 1) (c :: rest)
              = ((c :: rest).take updocL.length ++ pr.1) :: extractAllFuel f pr.2 from by
            simp [extractAllFuel, hpre, hscan]] at hp
          rcases List.mem_cons.mp hp with hp | hp
          · subst hp
            unfold leadsWithCI at hpre ⊢
            have hteq : ((c :: rest).take updocL.length).map asciiLower = updocL := by
              simpa using hpre
            have hlen : ((c :: rest).take updocL.length).length = updocL.length := by
              rw [← hteq]; simp
            rw [take_append_small _ _ _ (le_of_eq hlen.symm)]
            rw [List.take_take, Nat.min_self]
            exact hpre
          · exact ih pr.2 p hp
      · rw [show extractAllFuel (f + 1) (c :: rest) = extractAllFuel f rest from by
          simp [extractAllFuel, hpre]] at hp
        exact ih rest p hp

lemma processUpazila_ok (w : World) (hu : ∀ v uv, w.selectUpazilaFails v uv = none)
    (dS dV : Str) (u : Opt) (st : RunState) :
    ∃ st2, processUpazila w dS dV u st = Except.ok st2 := by
  unfold processUpazila
  rw [hu dV u.value]
  dsimp only
  cases hp : leafPlan (dedupFirst (extractAll (w.leafHtml dV u.value))) (slugify u.text) with
  | none => exact ⟨_, rfl⟩
  | some pr => exact ⟨_, rfl⟩

lemma runUpazilas_ok (w : World) (hu : ∀ v uv, w.selectUpazilaFails v uv = none)
    (dS dV : Str) : ∀ (us : List Opt) (st : RunState),
    ∃ st2, runUpazilas w dS dV us st = Except.ok st2 := by
  intro us
  induction us with
  | nil => intro st; exact ⟨st, rfl⟩
  | cons u rest ih =>
    intro st
    obtain ⟨st2, h2⟩ := processUpazila_ok w hu dS dV u st
    obtain ⟨st3, h3⟩ := ih st2
    refine ⟨st3, ?_⟩
    unfold runUpazilas
    rw [h2]
    exact h3

lemma processDistrict_ok (w : World) (hd : ∀ v, w.selectDistrictFails v = none)
    (hu : ∀ v uv, w.selectUpazilaFails v uv = none) (d : Opt) (st : RunState) :
    ∃ st2, processDistrict w d st = Except.ok st2 := by
  unfold processDistrict
  rw [hd d.value]
  dsimp only
  by_cases hups : filterOptions (w.upazilaOptions d.value) = []
  · rw [if_pos hups]
    exact ⟨_, rfl⟩
  · rw [if_neg hups]
    obtain ⟨st2, h2⟩ := runUpazilas_ok w hu (slugify d.text) d.value
      (filterOptions (w.upazilaOptions d.value)) _
    exact ⟨st2, h2⟩

lemma runDistricts_ok (w : World) (hd : ∀ v, w.selectDistrictFails v = none)
    (hu : ∀ v uv, w.selectUpazilaFails v uv = none) : ∀ (ds : List Opt) (st : RunState),
    ∃ st2, runDistricts w ds st = Except.ok st2 := by
  intro ds
  induction ds with
  | nil => intro st; exact ⟨st, rfl⟩
  | cons d rest ih =>
    intro st
    obtain ⟨st2, h2⟩ := processDistrict_ok w hd hu d st
    obtain ⟨st3, h3⟩ := ih st2
    refine ⟨st3, ?_⟩
    unfold runDistricts
    rw [h2]
    exact h3

lemma keepOption_eq (o : Opt) : keepOption o
    = !(decide (trimStr o.value = [] ∨ trimStr o.value = str "0" ∨ trimStr o.value = str "-1")) := by
  unfold keepOption
  by_cases h1 : trimStr o.value = []
  · simp [h1, List.isEmpty_iff]
  · by_cases h2 : trimStr o.value = str "0"
    · simp [h1, h2, List.isEmpty_iff]
    · by_cases h3 : trimStr o.value = str "-1"
      · simp [h1, h2, h3, List.isEmpty_iff]
      · simp [h1, h2, h3, List.isEmpty_iff]

lemma filterOptions_values (opts : List Opt) :
    List.Sublist ((filterOptions opts).map Opt.value) (opts.map Opt.value) := by
  unfold filterOptions
  rw [List.map_map]
  have hfun : (Opt.value ∘ fun o => ({ value := o.value, text := trimStr o.text } : Opt))
      = Opt.value := by
    funext o
    rfl
  rw [hfun]
  exact (List.filter_sublist _).map Opt.value

lemma mem_dedupFirstAux : ∀ (l seen : List Str) (x : Str),
    x ∈ dedupFirstAux seen l ↔ x ∈ l ∧ x ∉ seen := by
  intro l
  induction l with
  | nil => intro seen x; simp [dedupFirstAux]
  | cons a rest ih =>
    intro seen x
    by_cases ha : a ∈ seen
    · rw [show dedupFirstAux seen (a :: rest) = dedupFirstAux seen rest from by
        simp [dedupFirstAux, ha]]
      rw [ih seen x]
      constructor
      · rintro ⟨h1, h2⟩
        exact ⟨List.mem_cons_of_mem _ h1, h2⟩
      · rintro ⟨h1, h2⟩
        rcases List.mem_cons.mp h1 with h1 | h1
        · subst h1; exact absurd ha h2
        · exact ⟨h1, h2⟩
    · rw [show dedupFirstAux seen (a :: rest) = a :: dedupFirstAux (a :: seen) rest from by
        simp [dedupFirstAux, ha]]
      constructor
      · intro h
        rcases List.mem_cons.mp h with h | h
        · subst h; exact ⟨List.mem_cons_self _ _, ha⟩
        · have h2 := (ih (a :: seen) x).mp h
          exact ⟨List.mem_cons_of_mem _ h2.1, fun hx => h2.2 (List.mem_cons_of_mem _ hx)⟩
      · rintro ⟨h1, h2⟩
        rcases List.mem_cons.mp h1 with h1 | h1
        · subst h1; exact List.mem_cons_self _ _
        · by_cases hxa : x = a
          · subst hxa; exact List.mem_cons_self _ _
          · refine List.mem_cons_of_mem _ ((ih (a :: seen) x).mpr ⟨h1, ?_⟩)
            intro hx
            rcases List.mem_cons.mp hx with h | h
            · exact hxa h
            · exact h2 h

lemma nodup_dedupFirstAux : ∀ (l seen : List Str), (dedupFirstAux seen l).Nodup := by
  intro l
  induction l with
  | nil => intro seen; exact List.nodup_nil
  | cons a rest ih =>
    intro seen
    by_cases ha : a ∈ seen
    · rw [show dedupFirstAux seen (a :: rest) = dedupFirstAux seen rest from by
        simp [dedupFirstAux, ha]]
      exact ih seen
    · rw [show dedupFirstAux seen (a :: rest) = a :: dedupFirstAux (a :: seen) rest from by
        simp [dedupFirstAux, ha]]
      refine List.nodup_cons.mpr ⟨?_, ih (a :: seen)⟩
      intro hmem
      exact ((mem_dedupFirstAux rest (a :: seen) a).mp hmem).2 (List.mem_cons_self _ _)

lemma classifyLeaf_all (cands : List Str) (upSlug : Str) :
    (classifyLeaf cands upSlug).allPaths
      = cands.filter fun p => strIncludes (lowerStr p) (lowerStr upSlug) := rfl

lemma classifyLeaf_road (cands : List Str) (upSlug : Str) :
    (classifyLeaf cands upSlug).roadPaths
      = (classifyLeaf cands upSlug).allPaths.filter fun p => strIncludes (lowerStr p) roadNeedle := by
  unfold classifyLeaf
  simp [List.partition_eq_filter_filter]

lemma classifyLeaf_up (cands : List Str) (upSlug : Str) :
    (classifyLeaf cands upSlug).upazilaPaths
      = (classifyLeaf cands upSlug).allPaths.filter
          fun p => !(strIncludes (lowerStr p) roadNeedle) := by
  unfold classifyLeaf
  simp [List.partition_eq_filter_filter]

lemma leafDispatch_nodup (html upSlug : Str) : (leafDispatch html upSlug).Nodup := by
  unfold leafDispatch
  cases hp : leafPlan (dedupFirst (extractAll html)) upSlug with
  | none => exact List.nodup_nil
  | some pr =>
    have hc : (dedupFirst (extractAll html)).Nodup := nodup_dedupFirstAux _ _
    have hall : (classifyLeaf (dedupFirst (extractAll html)) upSlug).allPaths.Nodup := by
      rw [classifyLeaf_all]
      exact hc.filter _
    unfold leafPlan at hp
    dsimp only at hp
    by_cases hempty : (classifyLeaf (dedupFirst (extractAll html)) upSlug).allPaths = []
    · rw [if_pos hempty] at hp
      cases hp
    · rw [if_neg hempty] at hp
      by_cases hfb : (classifyLeaf (dedupFirst (extractAll html)) upSlug).upazilaPaths = []
          ∧ (classifyLeaf (dedupFirst (extractAll html)) upSlug).roadPaths = []
          ∧ (classifyLeaf (dedupFirst (extractAll html)) upSlug).allPaths ≠ []
      · rw [if_pos hfb] at hp
        have hpr := (Option.some.injEq _ _ |>.mp hp)
        rw [← hpr]
        simp only
        rw [hfb.2.1]
        simpa using hall
      · rw [if_neg hfb] at hp
        have hpr := (Option.some.injEq _ _ |>.mp hp)
        rw [← hpr]
        simp only
        rw [classifyLeaf_up, classifyLeaf_road]
        apply List.Nodup.append (hall.filter _) (hall.filter _)
        intro x hx1 hx2
        have m1 := List.mem_filter.mp hx1
        have m2 := List.mem_filter.mp hx2
        rw [m2.2] at m1
        exact absurd m1.2 (by decide)

/-- Claim C1, counterexample.  The Download Sink performs no existence
check: with a network that always answers 200, one call writes the
destination; calling again with the same task, although the destination now
exists among the written files, performs a second network fetch and a second
write, so the pair of runs performs two fetches and two writes rather than
the claimed one fetch and one write, and the written path is overwritten. -/
theorem C1_counterexample :
    d0 ∈ (downloadImage okFetch u0 d0 initState).files.map Prod.fst ∧
    (downloadImage okFetch u0 d0 (downloadImage okFetch u0 d0 initState)).fetchCount = 2 ∧
    (downloadImage okFetch u0 d0 (downloadImage okFetch u0 d0 initState)).fetchCount ≠ 1 ∧
    ((downloadImage okFetch u0 d0 (downloadImage okFetch u0 d0 initState)).files.map
        Prod.fst).count d0 = 2 ∧
    ((downloadImage okFetch u0 d0 (downloadImage okFetch u0 d0 initState)).files.map
        Prod.fst).count d0 ≠ 1 := by
  decide

/-- Claim C1, amended.  The Download Sink never skips: every call performs
exactly one network fetch regardless of the run state (in particular of
whether the destination path already exists), and a 2xx response always
appends a write of the destination path, so rerunning the sink with the
same task fetches and writes again. -/
theorem C1_amended (f : Str → FetchOutcome) (url dest : Str) (st : RunState) :
    (downloadImage f url dest st).fetchCount = st.fetchCount + 1 ∧
    (∀ status body, f url = FetchOutcome.ok status body → 200 ≤ status → status < 300 →
      (downloadImage f url dest st).files = st.files ++ [(dest, body)]) := by
  constructor
  · unfold downloadImage
    cases f url with
    | ok status body =>
      dsimp only
      by_cases h : status < 200 ∨ 300 ≤ status
      · rw [if_pos h]
      · rw [if_neg h]
    | noResp => rfl
    | err msg => rfl
  · intro status body hf h1 h2
    unfold downloadImage
    rw [hf]
    dsimp only
    rw [if_neg (by omega)]

/-- Claim C1, witness for the amended theorem at a concrete task. -/
theorem C1_amended_witness :
    (downloadImage okFetch u0 d0 initState).files = initState.files ++ [(d0, 7)] :=
  (C1_amended okFetch u0 d0 initState).2 200 7 rfl (by omega) (by omega)

/-- Claim C2, evidence of the code defect.  At a leaf labelled Savar with
the non-empty unfiltered candidate set holding only otherPath, filtering by
the label yields zero matches in both categories; the program then skips the
leaf entirely (the plan is none) instead of treating the whole unfiltered
set as Primary, because the guard of the fallback branch tests the filtered
list (bound to the name allPaths) and never the unfiltered one, making the
fallback unreachable and contradicting the comment above it in the source. -/
theorem C2_evidence :
    leafPlan [otherPath] (slugify (str "Savar")) = none ∧
    ([otherPath] : List Str) ≠ [] ∧
    leafPlan [otherPath] (slugify (str "Savar")) ≠ some ([otherPath], []) := by
  decide

/-- Claim C3, counterexample.  In a world whose only failure is a thrown
per-upazila selection error, the run aborts with exit code 1: the leaf-level
selection failure is not caught at the per-leaf scope and does produce a
non-zero exit, contradicting the claim. -/
theorem C3_counterexample : (runMain crashWorld).1 = 1 ∧ (runMain crashWorld).1 ≠ 0 := by
  decide

/-- Claim C3, amended.  The exit status is 1 when the filtered district list
is empty, and fetch or download failures alone can never make it non-zero:
whenever no selection call throws, the run exits 0 whatever the network
does (every fetch failure is caught inside downloadImage and turned into a
log line).  Thrown selection errors, by contrast, escape the loops to the
top-level catch and abort the run, as the counterexample shows. -/
theorem C3_amended (w : World) :
    (filterOptions w.districts = [] → (runMain w).1 = 1) ∧
    ((∀ v, w.selectDistrictFails v = none) → (∀ v uv, w.selectUpazilaFails v uv = none) →
      filterOptions w.districts ≠ [] → (runMain w).1 = 0) := by
  constructor
  · intro h
    unfold runMain
    dsimp only
    rw [if_pos h]
  · intro hd hu hne
    obtain ⟨st2, h2⟩ := runDistricts_ok w hd hu (filterOptions w.districts) _
    unfold runMain
    dsimp only
    rw [if_neg hne, h2]

/-- Claim C3, witness for the amended theorem on the happy world. -/
theorem C3_amended_witness : (runMain happyWorld).1 = 0 :=
  (C3_amended happyWorld).2 (fun _ => rfl) (fun _ _ => rfl) (by decide)

/-- Claim C4, counterexample.  With leaf label A B, the candidate spacedPath
has a lowercased form that contains the lowercased label as a substring, yet
the classifier does not retain it: the program filters by the slugified
label a_b, not by the lowercased label. -/
theorem C4_counterexample :
    strIncludes (lowerStr spacedPath) (lowerStr (str "A B")) = true ∧
    (classifyLeaf [spacedPath] (slugify (str "A B"))).allPaths = [] := by
  decide

/-- Claim C4, amended.  The classifier retains exactly those candidate paths
whose lowercased form contains the slugified leaf label as a substring, and
among retained paths assigns the road (Secondary) category to exactly those
whose lowercased form contains the road marker, all others being upazila
(Primary). -/
theorem C4_amended (cands : List Str) (label : Str) :
    (∀ p, p ∈ (classifyLeaf cands (slugify label)).allPaths ↔
      p ∈ cands ∧ strIncludes (lowerStr p) (slugify label) = true) ∧
    (∀ p, p ∈ (classifyLeaf cands (slugify label)).roadPaths ↔
      p ∈ (classifyLeaf cands (slugify label)).allPaths ∧
        strIncludes (lowerStr p) roadNeedle = true) ∧
    (∀ p, p ∈ (classifyLeaf cands (slugify label)).upazilaPaths ↔
      p ∈ (classifyLeaf cands (slugify label)).allPaths ∧
        strIncludes (lowerStr p) roadNeedle = false) := by
  refine ⟨?_, ?_, ?_⟩
  · intro p
    rw [classifyLeaf_all, lowerStr_slug]
    exact List.mem_filter
  · intro p
    rw [classifyLeaf_road]
    exact List.mem_filter
  · intro p
    rw [classifyLeaf_up, List.mem_filter]
    simp

/-- Claim C5.  For every binary fetch that returns no response, a non-2xx
status, or a thrown transport error, downloadImage appends exactly one
failure log line carrying the offending URL, writes nothing, and returns
normally, so the download loop continues with the next task (last
conjunct: the loop steps through a failing head task to the tail). -/
theorem C5_fetchFailure (f : Str → FetchOutcome) (url dest : Str) (st : RunState) :
    (f url = FetchOutcome.noResp →
      (downloadImage f url dest st).files = st.files ∧
      (downloadImage f url dest st).logs = st.logs ++ [LogEvent.noResponse url]) ∧
    (∀ status body, f url = FetchOutcome.ok status body → (status < 200 ∨ 300 ≤ status) →
      (downloadImage f url dest st).files = st.files ∧
      (downloadImage f url dest st).logs = st.logs ++ [LogEvent.nonOk url status]) ∧
    (∀ msg, f url = FetchOutcome.err msg →
      (downloadImage f url dest st).files = st.files ∧
      (downloadImage f url dest st).logs = st.logs ++ [LogEvent.downloadFailed url msg]) ∧
    (∀ c dS uS rel rest idx stL,
      downloadLoop f c dS uS (rel :: rest) idx stL
        = downloadLoop f c dS uS rest (idx + 1)
            (downloadImage f (resolveUrl rel) (mkDest c dS uS idx) stL)) := by
  refine ⟨?_, ?_, ?_, ?_⟩
  · intro h
    unfold downloadImage
    rw [h]
    exact ⟨rfl, rfl⟩
  · intro status body h hs
    unfold downloadImage
    rw [h]
    dsimp only
    rw [if_pos hs]
    exact ⟨rfl, rfl⟩
  · intro msg h
    unfold downloadImage
    rw [h]
    exact ⟨rfl, rfl⟩
  · intro c dS uS rel rest idx stL
    rfl

/-- Claim C5, witness at a concrete 404 fetch. -/
theorem C5_witness :
    (downloadImage f404 u0 d0 initState).files = initState.files ∧
    (downloadImage f404 u0 d0 initState).logs = initState.logs ++ [LogEvent.nonOk u0 404] :=
  (C5_fetchFailure f404 u0 d0 initState).2.1 404 0 rfl (by omega)

/-- Claim C6, counterexample.  The local path is not a collision-free
function of the raw labels: the distinct district labels A B and A-B
slugify to the same slug a_b, so they produce the same local path for the
same upazila, category and ordinal. -/
theorem C6_counterexample :
    destPath Category.upazila (str "A B") (str "x") 1
      = destPath Category.upazila (str "A-B") (str "x") 1 ∧
    str "A B" ≠ str "A-B" := by
  decide

/-- Claim C6, amended.  The computed local path is a deterministic function
of the slugified labels, the category and the ordinal alone; it follows the
format district slug, double underscore, upazila slug, underscore, category
token, underscore, ordinal, dot jpg, under the matching category
subdirectory; and it is collision-free in those slugs, the category and the
ordinal: two destinations coincide exactly when category, both slugs and
ordinal coincide.  Distinct labels with equal slugs, however, collide. -/
theorem C6_amended :
    (∀ c d u i, destPath c d u i
      = catDir c ++ '/' :: (slugify d ++ str "__" ++ slugify u
          ++ '_' :: (catTok c ++ '_' :: (natToDigits i ++ str ".jpg")))) ∧
    (∀ c1 c2 d1 u1 d2 u2 i1 i2,
      destPath c1 d1 u1 i1 = destPath c2 d2 u2 i2 ↔
        (c1 = c2 ∧ slugify d1 = slugify d2 ∧ slugify u1 = slugify u2 ∧ i1 = i2)) := by
  constructor
  · intro c d u i
    have h2 : str "__" = '_' :: '_' :: ([] : Str) := rfl
    unfold destPath mkDest mkFileName
    rw [h2]
    simp [List.append_assoc]
  · intro c1 c2 d1 u1 d2 u2 i1 i2
    exact destPath_inj_iff c1 c2 d1 u1 d2 u2 i1 i2

/-- Claim C7, counterexample.  The scanner accepts a candidate containing a
parent-traversal segment unchanged (no normalization removes it), and URL
resolution then escapes the UploadedDocument root: the resolved download URL
of the extracted candidate is the secret file at the site root, which does
not lie under the root URL. -/
theorem C7_counterexample :
    extractAll badHtml = [secretPath] ∧
    strIncludes secretPath (str "/../") = true ∧
    resolveUrl secretPath = str "https://oldweb.lged.gov.bd/secret.jpg" ∧
    leadsWith rootUrl (resolveUrl secretPath) = false := by
  decide

/-- Claim C7, amended.  Every candidate the scanner discovers begins,
case-insensitively, with the UploadedDocument root literal; no dot-segment
normalization is applied to it, so parent-traversal segments survive and
the resolved URL can escape the root, as the counterexample shows. -/
theorem C7_amended (html p : Str) (hp : p ∈ extractAll html) :
    leadsWithCI updocL p = true :=
  extractAllFuel_updoc html.length html p hp

/-- Claim C7, witness: the amended theorem applied to the extracted
traversal candidate. -/
theorem C7_amended_witness : leadsWithCI updocL secretPath = true :=
  C7_amended badHtml secretPath (by decide)

/-- Claim C8.  On the happy-path scenario world (district Dhaka of value 10,
upazila Savar of value 5, both derived links present, all fetches 200),
the run exits 0, writes exactly the two files dhaka__savar_upazila_1.jpg
under the upazila directory and dhaka__savar_road_1.jpg under the road
directory, in that order, and logs exactly one save line per written file. -/
theorem C8_happyPath :
    (runMain happyWorld).1 = 0 ∧
    (runMain happyWorld).2.files
      = [(str "lged_maps/upazila/dhaka__savar_upazila_1.jpg", 7),
         (str "lged_maps/road/dhaka__savar_road_1.jpg", 7)] ∧
    (runMain happyWorld).2.logs.filter isSaved
      = [LogEvent.saved (str "lged_maps/upazila/dhaka__savar_upazila_1.jpg"),
         LogEvent.saved (str "lged_maps/road/dhaka__savar_road_1.jpg")] := by
  decide

/-- Claim C9.  The option filter keeps exactly the options whose trimmed
value is neither empty nor 0 nor -1, maps each survivor to its raw value
and trimmed text, and preserves the remote-reported order (the surviving
values form a sublist of the original value sequence, and the district and
upazila loops fold over the filtered list in order). -/
theorem C9_optionFilter (opts : List Opt) :
    filterOptions opts
      = (opts.filter fun o => !(decide (trimStr o.value = [] ∨ trimStr o.value = str "0"
          ∨ trimStr o.value = str "-1"))).map
        (fun o => { value := o.value, text := trimStr o.text }) ∧
    List.Sublist ((filterOptions opts).map Opt.value) (opts.map Opt.value) := by
  constructor
  · unfold filterOptions
    congr 1
    apply List.filter_congr
    intro o _
    exact keepOption_eq o
  · exact filterOptions_values opts

/-- Claim C10, counterexample.  Uniqueness holds only for the matched path
texts, not for the fetched URLs: the two textually distinct candidates of
dupHtml both survive the Set deduplication and the savar filter, both are
dispatched for the one leaf, and URL resolution (which removes dot
segments) maps both to the identical URL, so the same URL is fetched twice
for the same leaf, contradicting the claimed conclusion. -/
theorem C10_counterexample :
    leafDispatch dupHtml (str "savar")
      = [str "/UploadedDocument/x/../savar.jpg", str "/UploadedDocument/savar.jpg"] ∧
    str "/UploadedDocument/x/../savar.jpg" ≠ str "/UploadedDocument/savar.jpg" ∧
    resolveUrl (str "/UploadedDocument/x/../savar.jpg")
      = str "https://oldweb.lged.gov.bd/UploadedDocument/savar.jpg" ∧
    ((leafDispatch dupHtml (str "savar")).map resolveUrl).count
        (str "https://oldweb.lged.gov.bd/UploadedDocument/savar.jpg") = 2 ∧
    ¬ ((leafDispatch dupHtml (str "savar")).map resolveUrl).Nodup := by
  decide

/-- Claim C10, amended.  Within one leaf, the extracted candidate list
contains each distinct matched remote path text at most once (duplicates in
the markup are collapsed via a Set, membership preserved), so no path text
is dispatched for download twice for the same leaf; textually distinct
candidates, however, may still resolve to the same URL after dot-segment
removal, so the same URL can be fetched twice per leaf (see the
counterexample). -/
theorem C10_dedup (html upSlug : Str) :
    (dedupFirst (extractAll html)).Nodup ∧
    (∀ p, p ∈ dedupFirst (extractAll html) ↔ p ∈ extractAll html) ∧
    (leafDispatch html upSlug).Nodup := by
  refine ⟨nodup_dedupFirstAux _ _, ?_, leafDispatch_nodup html upSlug⟩
  intro p
  unfold dedupFirst
  rw [mem_dedupFirstAux]
  simp

/-- Claim C4, witness: the amended characterization evaluated at the
concrete candidate and label of the counterexample. -/
theorem C4_amended_witness :
    spacedPath ∈ (classifyLeaf [spacedPath] (slugify (str "A B"))).allPaths ↔
      spacedPath ∈ [spacedPath] ∧ strIncludes (lowerStr spacedPath) (slugify (str "A B")) = true :=
  (C4_amended [spacedPath] (str "A B")).1 spacedPath

/-- Claim C6, witness: the amended collision-freedom law instantiated on
concrete labels whose slugs coincide. -/
theorem C6_amended_witness :
    destPath Category.road (str "Dhaka") (str "Savar") 3
      = destPath Category.road (str " Dhaka ") (str "Savar") 3 :=
  (C6_amended.2 Category.road Category.road (str "Dhaka") (str "Savar")
      (str " Dhaka ") (str "Savar") 3 3).mpr ⟨rfl, by decide, rfl, rfl⟩
